import Mathlib

/-!
Shallow embedding of the client-side job search and ranking engine of the
job-listing web application: string similarity (`levenshteinDistance`,
`similarityRatio`), the fuzzy field matcher (`fuzzyMatch`), the structured
query mini-language (`parseSearchText` for the tags given with an at-sign:
age, company, location), the numeric field extractors (`getSalaryValue`,
`getExperienceValue`) and the filter/sort pipeline (`processedJobs`).

Modelling conventions: JavaScript strings are `List Char` (wrapped in
`String` at the API); JS numbers that carry fractional values are `ℚ`;
absent (`null`/`undefined`) values are `Option`; the JS regular expressions
of the source are embedded as executable scanning functions with the same
match semantics (leftmost match, greedy or lazy quantifiers as written,
case-insensitive flags via lowercasing); `Array.prototype.sort`, which is
specified as a stable sort by the comparator, is embedded as a stable
insertion sort by the comparator's induced boolean order; `toLowerCase`,
`trim`, the whitespace class and the word class are embedded at their ASCII
meaning.
-/

namespace JobSearch

/-- Word character as in the regex word class: ASCII letters, digits and the
underscore. -/
def isWordChar (c : Char) : Bool := c.isAlphanum || c == '_'

/-- Drop whitespace from both ends: embeds `String.prototype.trim`. -/
def trimChars (l : List Char) : List Char :=
  ((l.dropWhile Char.isWhitespace).reverse.dropWhile Char.isWhitespace).reverse

/-- Lowercase, then trim: embeds `text.toLowerCase().trim()` as used by
`fuzzyMatch` for both its arguments. -/
def normalize (l : List Char) : List Char := trimChars (l.map Char.toLower)

/-- Split on runs of whitespace and keep the nonempty pieces: embeds
`s.split(whitespace-run regex).filter(w => w.length > 0)`. Auxiliary
accumulator holds the current word reversed. -/
def splitWsAux : List Char → List Char → List (List Char)
  | [], acc => [acc.reverse]
  | c :: cs, acc =>
    if c.isWhitespace then acc.reverse :: splitWsAux cs [] else splitWsAux cs (c :: acc)

/-- The whitespace-delimited words of a character list. -/
def wordsOf (l : List Char) : List (List Char) := (splitWsAux l []).filter (fun w => w ≠ [])

/-- Whether `q` occurs in `t` starting at index `i`. -/
def occursAt (t q : List Char) (i : Nat) : Bool := q.isPrefixOf (t.drop i)

/-- Embeds `String.prototype.includes`: `q` occurs somewhere in `t`. -/
def containsSubstr (t q : List Char) : Bool :=
  (List.range (t.length + 1)).any (fun i => occursAt t q i)

/-- Whether the character of `t` at index `i` exists and is a word character. -/
def wordAt (t : List Char) (i : Nat) : Bool :=
  match t.drop i with
  | [] => false
  | c :: _ => isWordChar c

/-- Whether position `i` of `t` (a gap between characters, `0 ≤ i ≤ length`)
is a word boundary in the regex sense: the word-character status differs
between the character before the position and the character at it, with both
ends of the string counting as non-word. -/
def boundaryAt (t : List Char) (i : Nat) : Bool :=
  (if i = 0 then false else wordAt t (i - 1)) != wordAt t i

/-- Test of the word-boundary regex the source builds from the
regex-escaped query: boundary, the query text taken literally (the source
escapes every regex metacharacter of the query, so the pattern between the
two boundaries matches exactly the query), boundary. True when some
occurrence of `q` in `t` has word boundaries at both ends. -/
def wordBoundaryTest (t q : List Char) : Bool :=
  (List.range (t.length + 1)).any (fun i =>
    occursAt t q i && boundaryAt t i && boundaryAt t (i + q.length))

/-- Inner loop of one Levenshtein matrix row, from column 1 on. `c` is the
character of `str1` for this row, `ys` the remaining characters of `str2`,
`prevl` the previous row from column `j - 1` on (so its head is the diagonal
entry), `left` the entry just written at column `j - 1`. Deletion is the
entry above plus 1, insertion the entry to the left plus 1, substitution the
diagonal plus 1, exactly as in the source's matrix fill. -/
def levRowGo (c : Char) : List Char → List Nat → Nat → List Nat
  | [], _, _ => []
  | _ :: _, [], _ => []
  | y :: ys, diag :: rest, left =>
    (if c = y then diag else min (rest.headD 0 + 1) (min (left + 1) (diag + 1))) ::
      levRowGo c ys rest
        (if c = y then diag else min (rest.headD 0 + 1) (min (left + 1) (diag + 1)))

/-- Row `i` of the Levenshtein matrix: entry `i` at column 0 (as in the
source's initialization of the first column), then the inner loop. -/
def levRow (c : Char) (i : Nat) (s2 : List Char) (prev : List Nat) : List Nat :=
  i :: levRowGo c s2 prev i

/-- Fill the matrix row by row over the characters of `str1`. -/
def levRows : List Char → List Char → List Nat → Nat → List Nat
  | [], _, prev, _ => prev
  | c :: cs, s2, prev, i => levRows cs s2 (levRow c i s2 prev) (i + 1)

/-- Levenshtein distance as the source computes it: dynamic-programming
matrix with first row `0, 1, ..., len2`, first column `0, 1, ..., len1`,
and the standard recurrence; the result is the bottom-right entry. -/
def levenshteinDistance (str1 str2 : List Char) : Nat :=
  (levRows str1 str2 (List.range (str2.length + 1)) 1).getLastD 0

/-- Recurrence satisfied by the entries of the Levenshtein matrix, peeling
characters from the front; the proof-side characterization of
`levenshteinDistance` (which the matrix computes for the reversed inputs'
front-peeling, i.e. its own inputs' back-peeling). -/
def lev : List Char → List Char → Nat
  | [], ys => ys.length
  | _ :: xs, [] => xs.length + 1
  | x :: xs, y :: ys =>
    if x = y then lev xs ys
    else min (lev xs (y :: ys) + 1) (min (lev (x :: xs) ys + 1) (lev xs ys + 1))
termination_by xs ys => xs.length + ys.length

/-- Specification of a matrix row: the entries for columns `|q| + 1` on,
where `q` is the reversed prefix of `str2` consumed so far and `ys` the rest
of `str2`, for the reversed prefix `pr` of `str1`. -/
def rowFor (pr : List Char) : List Char → List Char → List Nat
  | _, [] => []
  | q, y :: ys => lev pr (y :: q) :: rowFor pr (y :: q) ys

/-- Similarity ratio between two strings: 1 minus the Levenshtein distance
divided by the longer length, and 1 when both are empty. -/
def similarityRatio (str1 str2 : List Char) : ℚ :=
  if max str1.length str2.length = 0 then 1
  else 1 - (levenshteinDistance str1 str2 : ℚ) / (max str1.length str2.length : ℚ)

/-- Ratio of the shorter to the longer of two word lengths, the gate the
source puts before per-word fuzzy similarity. -/
def lengthRatio (queryWord textWord : List Char) : ℚ :=
  (min queryWord.length textWord.length : ℚ) / (max queryWord.length textWord.length : ℚ)

/-- Word-level stage of the fuzzy cascade, on the query's word list: a
single-word query of length at most 2 falls back to plain containment of
the whole normalized query; a longer single word is compared to each text
word by equality, containment for query words of length at least 4, or
similarity under the length-ratio gate; a multi-word (or empty) query
requires every query word to find support by word equality, the per-word
word-boundary regex, containment for words of length at least 3, or gated
similarity. -/
def wordStage (nt nq : List Char) (threshold : ℚ) : List (List Char) → Bool
  | [queryWord] =>
    if queryWord.length ≤ 2 then containsSubstr nt nq
    else (wordsOf nt).any (fun textWord =>
      textWord == queryWord ||
      (decide (4 ≤ queryWord.length) && containsSubstr textWord queryWord) ||
      (decide ((0.5 : ℚ) ≤ lengthRatio queryWord textWord) &&
        decide (threshold ≤ similarityRatio textWord queryWord)))
  | qws => qws.all (fun queryWord =>
      (wordsOf nt).any (fun textWord => textWord == queryWord) ||
      wordBoundaryTest nt queryWord ||
      (decide (3 ≤ queryWord.length) && containsSubstr nt queryWord) ||
      (wordsOf nt).any (fun textWord =>
        decide ((0.5 : ℚ) ≤ lengthRatio queryWord textWord) &&
        decide (threshold ≤ similarityRatio textWord queryWord)))

/-- The cascade of `fuzzyMatch` after both arguments are normalized:
exact equality; whole-string similarity against the threshold; the
word-boundary regex; substring containment for queries of length at least
3; then the word-level stage. -/
def fuzzyAfterNorm (nt nq : List Char) (threshold : ℚ) : Bool :=
  if nt = nq then true
  else if threshold ≤ similarityRatio nt nq then true
  else if wordBoundaryTest nt nq then true
  else if 3 ≤ nq.length ∧ containsSubstr nt nq = true then true
  else wordStage nt nq threshold (wordsOf nq)

/-- Whether `text` fuzzy-matches `query` at `threshold`: the exported
`fuzzyMatch` of the source. -/
def fuzzyMatch (text query : String) (threshold : ℚ) : Bool :=
  fuzzyAfterNorm (normalize text.data) (normalize query.data) threshold

/-- Case-insensitively strip a literal pattern (given lowercase) from the
front of the text: `some rest` on success. Embeds matching the literal part
of a case-insensitive regex at one position. -/
def stripTagCI : List Char → List Char → Option (List Char)
  | [], l => some l
  | _ :: _, [] => none
  | p :: ps, c :: cs => if c.toLower = p then stripTagCI ps cs else none

/-- Value of a digit run under `parseInt(s, 10)`. -/
def digitsToNat (l : List Char) : Nat :=
  l.foldl (fun n c => n * 10 + (c.toNat - '0'.toNat)) 0

/-- The tag literals of the structured query mini-language, lowercase. -/
def ageTag : List Char := "@age:".data

def companyTag : List Char := "@company:".data

def locationTag : List Char := "@location:".data

/-- First match of the age-tag regex (the tag, case-insensitive, then one or
more digits, greedy): the digits of the first occurrence. Scans left to
right as a regex engine does. -/
def findAge : List Char → Option Nat
  | [] => none
  | c :: cs =>
    match stripTagCI ageTag (c :: cs) with
    | some rest =>
      if rest.takeWhile Char.isDigit = [] then findAge cs
      else some (digitsToNat (rest.takeWhile Char.isDigit))
    | none => findAge cs

/-- Global replace of the age-tag regex by the empty string, on fuel (the
fuel is the text length, enough since every step consumes at least one
character): each match is dropped and scanning resumes after it. -/
def removeAgeTagsF : Nat → List Char → List Char
  | 0, l => l
  | _, [] => []
  | fuel + 1, c :: cs =>
    match stripTagCI ageTag (c :: cs) with
    | some rest =>
      if rest.takeWhile Char.isDigit = [] then c :: removeAgeTagsF fuel cs
      else removeAgeTagsF fuel (rest.drop (rest.takeWhile Char.isDigit).length)
    | none => c :: removeAgeTagsF fuel cs

def removeAgeTags (l : List Char) : List Char := removeAgeTagsF l.length l

/-- Whether the lookahead `zero or more whitespace, then an at-sign or the
end` holds at this suffix: after skipping the maximal whitespace run the
text ends or continues with an at-sign. -/
def lookaheadOK (l : List Char) : Bool :=
  match l.dropWhile Char.isWhitespace with
  | [] => true
  | c :: _ => c == '@'

/-- Lazy expansion of the capture `one or more characters other than the
at-sign, as few as possible` followed by the lookahead: starting from the
accumulated capture (reversed) and the remaining text, stop at the first
position where the lookahead holds; otherwise consume one character. The
consumed characters are never at-signs, since an at-sign at the head makes
the lookahead hold. Fuel is the remaining length. -/
def lazyCaptureGo : Nat → List Char → List Char → List Char × List Char
  | 0, acc, l => (acc.reverse, l)
  | fuel + 1, acc, l =>
    if lookaheadOK l then (acc.reverse, l)
    else
      match l with
      | [] => (acc.reverse, [])
      | c :: cs => lazyCaptureGo fuel (c :: acc) cs

/-- Capture of a company/location tag value right after the tag: at least
one non-at-sign character, lazily extended to the first position where the
lookahead holds. `none` when the first character is missing or an at-sign
(then the regex fails at this position). Returns the capture and the text
remaining after the matched portion (the lookahead consumes nothing). -/
def tagCapture : List Char → Option (List Char × List Char)
  | [] => none
  | c :: cs => if c == '@' then none else some (lazyCaptureGo cs.length [c] cs)

/-- Full match of a company/location tag pattern at the head of the text:
the case-insensitive tag literal, then the lazy capture with lookahead. -/
def tagMatchAt (tag l : List Char) : Option (List Char × List Char) :=
  match stripTagCI tag l with
  | none => none
  | some rest => tagCapture rest

/-- First match of a company/location tag pattern: the capture of the
leftmost occurrence. -/
def findTag (tag : List Char) : List Char → Option (List Char)
  | [] => none
  | c :: cs =>
    match tagMatchAt tag (c :: cs) with
    | some (cap, _) => some cap
    | none => findTag tag cs

/-- Global replace of a company/location tag pattern by the empty string,
on fuel: each matched portion is dropped, scanning resumes right after it
(the zero-width lookahead is not consumed, as in JavaScript). -/
def removeTagF : Nat → List Char → List Char → List Char
  | 0, _, l => l
  | _, _, [] => []
  | fuel + 1, tag, c :: cs =>
    match tagMatchAt tag (c :: cs) with
    | some (_, rem) => removeTagF fuel tag rem
    | none => c :: removeTagF fuel tag cs

def removeTag (tag l : List Char) : List Char := removeTagF l.length tag l

/-- The parsed structured query. -/
structure ParsedSearch where
  age : Option Nat
  company : Option String
  location : Option String
  generalSearch : String
deriving DecidableEq

/-- Empty capture becomes null: embeds `company || null` on the trimmed
capture. -/
def optStr (l : List Char) : Option String :=
  if l = [] then none else some (String.mk l)

/-- Text remaining after extracting the age tag: the global replace then a
trim when the tag matched, the text unchanged otherwise. -/
def afterAge (l : List Char) : List Char :=
  match findAge l with
  | some _ => trimChars (removeAgeTags l)
  | none => l

/-- Text remaining after extracting a company/location tag, same shape. -/
def afterTag (tag l : List Char) : List Char :=
  match findTag tag l with
  | some _ => trimChars (removeTag tag l)
  | none => l

/-- The structured query parser: extract the age tag, then the company tag,
then the location tag, each from the progressively stripped remainder;
whatever remains is the general search text. Empty or whitespace-only input
yields the all-null result. -/
def parseSearchText (searchText : String) : ParsedSearch :=
  if trimChars searchText.data = [] then ⟨none, none, none, ""⟩
  else
    { age := findAge searchText.data,
      company := ((findTag companyTag (afterAge searchText.data)).map trimChars).bind optStr,
      location := ((findTag locationTag (afterTag companyTag (afterAge searchText.data))).map
        trimChars).bind optStr,
      generalSearch :=
        String.mk (afterTag locationTag (afterTag companyTag (afterAge searchText.data))) }

/-- The single-quote character (written by code point to keep string
literals free of quote characters). -/
def squo : Char := Char.ofNat 39

/-- The double-quote character. -/
def dquo : Char := Char.ofNat 34

/-- Tokens of `parseFloat` on the decimal shapes this codebase produces:
skip leading whitespace, an optional sign, a run of integer digits, an
optional dot with a run of fraction digits; `none` (NaN) when no digit was
found. Returns (negative?, integer digits, fraction digits). Exponent
notation does not occur in the salary data and is not modelled. -/
def floatTokens (l : List Char) : Option (Bool × List Char × List Char) :=
  match (l.dropWhile Char.isWhitespace).head? with
  | none => none
  | some c =>
    match
      (if c == '-' then (true, (l.dropWhile Char.isWhitespace).tail)
       else if c == '+' then (false, (l.dropWhile Char.isWhitespace).tail)
       else (false, l.dropWhile Char.isWhitespace)) with
    | (neg, l2) =>
      match (l2.drop (l2.takeWhile Char.isDigit).length).head? with
      | some d =>
        if d == '.' then
          if l2.takeWhile Char.isDigit = [] ∧
              ((l2.drop (l2.takeWhile Char.isDigit).length).tail.takeWhile Char.isDigit) = []
          then none
          else some (neg, l2.takeWhile Char.isDigit,
            (l2.drop (l2.takeWhile Char.isDigit).length).tail.takeWhile Char.isDigit)
        else
          if l2.takeWhile Char.isDigit = [] then none
          else some (neg, l2.takeWhile Char.isDigit, [])
      | none =>
        if l2.takeWhile Char.isDigit = [] then none
        else some (neg, l2.takeWhile Char.isDigit, [])

/-- The numeric value of `parseFloat`, `none` for NaN. -/
def parseFloatQ (l : List Char) : Option ℚ :=
  (floatTokens l).map (fun t =>
    (if t.1 then (-1 : ℚ) else 1) *
      ((digitsToNat t.2.1 : ℚ) + (digitsToNat t.2.2 : ℚ) / 10 ^ t.2.2.length))

/-- The quoted `amount` key of the dict-like salary shape, single-quoted
variant: the literal `'amount':` lowercase (matched case-insensitively). -/
def amountTagS : List Char := [squo] ++ "amount".data ++ [squo, ':']

/-- Double-quoted variant `"amount":`. -/
def amountTagD : List Char := [dquo] ++ "amount".data ++ [dquo, ':']

/-- Match of the dict amount regex at the head of the text: either quoted
`amount:` key, then optional whitespace, a quote, a greedy run of one or
more non-quote characters (the capture), and a closing quote. -/
def amountAt (l : List Char) : Option (List Char) :=
  match (match stripTagCI amountTagS l with
         | some rest => some rest
         | none => stripTagCI amountTagD l) with
  | none => none
  | some rest =>
    match rest.dropWhile Char.isWhitespace with
    | [] => none
    | c :: cs =>
      if c == squo || c == dquo then
        match (cs.drop (cs.takeWhile (fun d => ! (d == squo || d == dquo))).length).head? with
        | some d =>
          if cs.takeWhile (fun d => ! (d == squo || d == dquo)) ≠ [] ∧
              (d == squo || d == dquo) = true then
            some (cs.takeWhile (fun d => ! (d == squo || d == dquo)))
          else none
        | none => none
      else none

/-- First match of the dict amount regex: capture of the leftmost
occurrence. -/
def findAmount : List Char → Option (List Char)
  | [] => none
  | c :: cs =>
    match amountAt (c :: cs) with
    | some cap => some cap
    | none => findAmount cs

/-- Digit-or-comma character class of the salary regexes. -/
def isNumComma (c : Char) : Bool := c.isDigit || c == ','

/-- Dash separators of the range regex: hyphen, en dash, em dash. -/
def isDash (c : Char) : Bool := c == '-' || c == '–' || c == '—'

/-- After the first run: optional whitespace, optional `K`, optional
whitespace, then a dash; yields whether the `K` was present and the text
after the dash (whitespace skipped). -/
def afterKDash (l : List Char) : Option (Bool × List Char) :=
  match (match (l.dropWhile Char.isWhitespace).head? with
         | some d =>
           if d.toLower == 'k' then (true, (l.dropWhile Char.isWhitespace).tail)
           else (false, l.dropWhile Char.isWhitespace)
         | none => (false, l.dropWhile Char.isWhitespace)) with
  | (k1, r3) =>
    match (r3.dropWhile Char.isWhitespace).head? with
    | some d =>
      if isDash d then some (k1, (r3.dropWhile Char.isWhitespace).tail.dropWhile Char.isWhitespace)
      else none
    | none => none

/-- Whether an optional whitespace run then a `K` (case-insensitive)
follows. -/
def kFollows (l : List Char) : Bool :=
  match (l.dropWhile Char.isWhitespace).head? with
  | some d => d.toLower == 'k'
  | none => false

/-- Match of the salary range regex at the head of the text: a run of digits
or commas, optional whitespace, an optional `K` (case-insensitive), optional
whitespace, a dash, optional whitespace, a second run, trailing optional
whitespace and `K`. Returns the first run and whether a `K` appears anywhere
in the matched text (the source tests `/K/i` on the whole match). -/
def rangeAt (l : List Char) : Option (List Char × Bool) :=
  match l.head? with
  | none => none
  | some c =>
    if isNumComma c then
      match afterKDash (l.drop (l.takeWhile isNumComma).length) with
      | none => none
      | some (k1, afterDash) =>
        match afterDash.takeWhile isNumComma with
        | [] => none
        | _ :: _ =>
          some (l.takeWhile isNumComma,
            k1 || kFollows (afterDash.drop (afterDash.takeWhile isNumComma).length))
    else none

/-- First match of the range regex. -/
def findRange : List Char → Option (List Char × Bool)
  | [] => none
  | c :: cs =>
    match rangeAt (c :: cs) with
    | some r => some r
    | none => findRange cs

/-- Match of the single-value salary regex at the head of the text: a run of
digits or commas, then optional whitespace and an optional `K`. -/
def singleAt (l : List Char) : Option (List Char × Bool) :=
  match l.head? with
  | none => none
  | some c =>
    if isNumComma c then
      some (l.takeWhile isNumComma, kFollows (l.drop (l.takeWhile isNumComma).length))
    else none

/-- First match of the single-value regex. -/
def findSingle : List Char → Option (List Char × Bool)
  | [] => none
  | c :: cs =>
    match singleAt (c :: cs) with
    | some r => some r
    | none => findSingle cs

/-- Currency symbols stripped before salary parsing. -/
def isCurrencySym (c : Char) : Bool :=
  c == '$' || c == '€' || c == '£' || c == '¥' || c == '₹'

/-- Single-value branch of `getSalaryValue`: parsed amount (times 1000 when
a `K` is attached) plus the 0.5 tie-break offset, `-1` when unparsable. -/
def getSalarySingle (normalized : List Char) : ℚ :=
  match findSingle normalized with
  | some (run, hasK) =>
    match parseFloatQ (run.filter (fun c => ! (c == ','))) with
    | some amount => (if hasK then amount * 1000 else amount) + 0.5
    | none => -1
  | none => -1

/-- Range branch then single branch: the range's minimum bound (times 1000
when a `K` appears in the match), falling through on an unparsable run. -/
def getSalaryAfterDict (normalized : List Char) : ℚ :=
  match findRange normalized with
  | some (run1, hasK) =>
    match parseFloatQ (run1.filter (fun c => ! (c == ','))) with
    | some m => if hasK then m * 1000 else m
    | none => getSalarySingle normalized
  | none => getSalarySingle normalized

/-- Numeric sort value of a salary summary: `-1` for absent or unparsable
text; dict amount plus 0.5; range minimum with no offset; single value plus
0.5. Currency symbols are stripped first. -/
def getSalaryValue (salarySummary : Option String) : ℚ :=
  match salarySummary with
  | none => -1
  | some s =>
    if s.data = [] then -1
    else
      match findAmount (s.data.filter (fun c => ! isCurrencySym c)) with
      | some cap =>
        match parseFloatQ cap with
        | some amount => amount + 0.5
        | none => getSalaryAfterDict (s.data.filter (fun c => ! isCurrencySym c))
      | none => getSalaryAfterDict (s.data.filter (fun c => ! isCurrencySym c))

/-- First maximal run of digits in the text, `none` when there is none. -/
def firstDigitRun : List Char → Option (List Char)
  | [] => none
  | c :: cs =>
    if c.isDigit then some ((c :: cs).takeWhile Char.isDigit) else firstDigitRun cs

/-- Numeric sort value of an experience string: the first run of digits as
the years value, `⊤` (Infinity: sorts last ascending) for an absent, empty
or digit-free string. -/
def getExperienceValue (experience : Option String) : ℕ∞ :=
  match experience with
  | none => ⊤
  | some s =>
    if s.data = [] then ⊤
    else
      match firstDigitRun s.data with
      | some run => (digitsToNat run : ℕ∞)
      | none => ⊤

/-- The job record fields the search engine reads. -/
structure Job where
  title : String
  company : String
  location : String
  posted_at : Option String
  salary_summary : Option String
  experience : Option String
deriving DecidableEq

/-- A job with its pre-computed `posted_at` timestamp (`none` for an absent
or unparsable date). -/
structure JobWithTimestamp where
  job : Job
  dateTimestamp : Option Int
deriving DecidableEq

/-- Stable insertion into a list already stably sorted by `le`: the new
element, which stood before every element of the list, goes before the first
element it compares less-or-equal to. -/
def stableInsert (le : α → α → Bool) (a : α) : List α → List α
  | [] => [a]
  | b :: bs => if le a b then a :: b :: bs else b :: stableInsert le a bs

/-- Stable sort by a boolean total preorder: embeds
`Array.prototype.sort(comparator)`, which is specified as a stable sort by
the comparator (an element goes before another exactly when the comparator
is non-positive on the pair). -/
def stableSort (le : α → α → Bool) : List α → List α
  | [] => []
  | a :: as => stableInsert le a (stableSort le as)

/-- Lexicographic boolean order on character lists. -/
def charListLe : List Char → List Char → Bool
  | [], _ => true
  | _ :: _, [] => false
  | a :: as, b :: bs => if a = b then charListLe as bs else decide (a < b)

/-- The comparator `compareStrings` of the source: trim both strings, then a
case-insensitive comparison (`localeCompare` with base sensitivity,
embedded as lexicographic order on the lowercased text); `true` when the
comparator is non-positive. -/
def compareStringsLe (a b : String) : Bool :=
  charListLe ((trimChars a.data).map Char.toLower) ((trimChars b.data).map Char.toLower)

/-- The recency comparator: newest first, jobs with no valid timestamp
last, missing timestamps tie. -/
def recentLe (a b : JobWithTimestamp) : Bool :=
  match a.dateTimestamp, b.dateTimestamp with
  | none, none => true
  | none, some _ => false
  | some _, none => true
  | some x, some y => decide (y ≤ x)

/-- The sort switch of the all-jobs list: location, company and recent are
recognized; the title case and the default case of the switch share one
branch, so any other value sorts by title. -/
def sortJobs (sortBy : String) (l : List JobWithTimestamp) : List JobWithTimestamp :=
  if sortBy = "location" then
    stableSort (fun a b => compareStringsLe a.job.location b.job.location) l
  else if sortBy = "company" then
    stableSort (fun a b => compareStringsLe a.job.company b.job.company) l
  else if sortBy = "recent" then stableSort recentLe l
  else stableSort (fun a b => compareStringsLe a.job.title b.job.title) l

/-- The sort switch of the map sidebar: six recognized keys, no default
case, so any other value leaves the order unchanged; its string sorts use
plain `localeCompare` (embedded as lexicographic order on the raw text) and
its recency sort reads dates through the external `getJobDate` helper,
passed as a parameter. -/
def sortJobsSidebar (getJobDate : Job → Option Int) (sortBy : String) (l : List Job) :
    List Job :=
  if sortBy = "company" then stableSort (fun a b => charListLe a.company.data b.company.data) l
  else if sortBy = "location" then
    stableSort (fun a b => charListLe a.location.data b.location.data) l
  else if sortBy = "title" then stableSort (fun a b => charListLe a.title.data b.title.data) l
  else if sortBy = "recent" then
    stableSort (fun a b =>
      match getJobDate a, getJobDate b with
      | none, none => true
      | none, some _ => false
      | some _, none => true
      | some x, some y => decide (y ≤ x)) l
  else if sortBy = "experience" then
    stableSort (fun a b =>
      decide (getExperienceValue a.experience ≤ getExperienceValue b.experience)) l
  else if sortBy = "salary" then
    stableSort (fun a b =>
      decide (getSalaryValue b.salary_summary ≤ getSalaryValue a.salary_summary)) l
  else l

/-- Timestamps pre-computed once per job: the external `Date` parse is a
parameter (`none` embeds an invalid date); an absent or empty `posted_at`
yields no timestamp. -/
def jobsWithTimestamps (parseDate : String → Option Int) (jobs : List Job) :
    List JobWithTimestamp :=
  jobs.map (fun job =>
    ⟨job, match job.posted_at with
          | some s => if s = "" then none else parseDate s
          | none => none⟩)

/-- Effective age cutoff: the parsed tag value when present, else the
explicit age filter. -/
def effAge (psAge : Option Nat) (ageFilter : Option Int) : Option Int :=
  match psAge with
  | some a => some (a : Int)
  | none => ageFilter

/-- Age filter stage: with a cutoff, keep only jobs whose timestamp exists
and is at least `now` minus the cutoff in milliseconds. -/
def ageFiltered (now : Int) (eff : Option Int) (l : List JobWithTimestamp) :
    List JobWithTimestamp :=
  match eff with
  | none => l
  | some a =>
    l.filter (fun j =>
      match j.dateTimestamp with
      | none => false
      | some t => decide (now - a * 24 * 60 * 60 * 1000 ≤ t))

/-- Company filter stage: fuzzy match at threshold 0.95. -/
def companyFiltered (copt : Option String) (l : List JobWithTimestamp) :
    List JobWithTimestamp :=
  match copt with
  | none => l
  | some c => l.filter (fun j => fuzzyMatch j.job.company c 0.95)

/-- Location filter stage: fuzzy match at threshold 0.85. -/
def locationFiltered (lopt : Option String) (l : List JobWithTimestamp) :
    List JobWithTimestamp :=
  match lopt with
  | none => l
  | some lo => l.filter (fun j => fuzzyMatch j.job.location lo 0.85)

/-- General search stage: when the residual text is nonempty after a trim,
keep jobs whose title, company or location fuzzy-matches the lowercased
trimmed text at threshold 0.75. -/
def generalFiltered (g : String) (l : List JobWithTimestamp) : List JobWithTimestamp :=
  if trimChars g.data = [] then l
  else
    l.filter (fun j =>
      fuzzyMatch j.job.title (String.mk ((trimChars g.data).map Char.toLower)) 0.75 ||
      fuzzyMatch j.job.company (String.mk ((trimChars g.data).map Char.toLower)) 0.75 ||
      fuzzyMatch j.job.location (String.mk ((trimChars g.data).map Char.toLower)) 0.75)

/-- The query pipeline of the all-jobs list: parse the search text, apply
the age cutoff, the company, location and general fuzzy filters in order,
then sort. `parseDate` embeds the external `Date` parser and `now` the
current time in milliseconds. -/
def processedJobs (parseDate : String → Option Int) (now : Int) (jobs : List Job)
    (searchText : String) (sortBy : String) (ageFilter : Option Int) :
    List JobWithTimestamp :=
  sortJobs sortBy
    (generalFiltered (parseSearchText searchText).generalSearch
      (locationFiltered (parseSearchText searchText).location
        (companyFiltered (parseSearchText searchText).company
          (ageFiltered now (effAge (parseSearchText searchText).age ageFilter)
            (jobsWithTimestamps parseDate jobs)))))

/-! Equivalence of the matrix computation with the front-peeling recurrence,
and the metric properties of the distance. -/

theorem lev_nil_left (ys : List Char) : lev [] ys = ys.length := by
  simp [lev]

theorem lev_cons_nil (x : Char) (xs : List Char) : lev (x :: xs) [] = xs.length + 1 := by
  simp [lev]

theorem lev_cons_cons (x y : Char) (xs ys : List Char) :
    lev (x :: xs) (y :: ys) =
      if x = y then lev xs ys
      else min (lev xs (y :: ys) + 1) (min (lev (x :: xs) ys + 1) (lev xs ys + 1)) := by
  simp [lev]

theorem levRowGo_spec (c : Char) (pr : List Char) :
    ∀ (ys q : List Char),
      levRowGo c ys (lev pr q :: rowFor pr q ys) (lev (c :: pr) q) =
        rowFor (c :: pr) q ys := by
  intro ys
  induction ys with
  | nil => intro q; simp [levRowGo, rowFor]
  | cons y ys ih =>
    intro q
    rw [rowFor, levRowGo]
    simp only [List.headD_cons]
    rw [← lev_cons_cons c y pr q, rowFor]
    rw [ih (y :: q)]

theorem levRows_spec (s2 : List Char) :
    ∀ (cs pr : List Char),
      levRows cs s2 (lev pr [] :: rowFor pr [] s2) (pr.length + 1) =
        lev (cs.reverseAux pr) [] :: rowFor (cs.reverseAux pr) [] s2 := by
  intro cs
  induction cs with
  | nil => intro pr; simp [levRows, List.reverseAux]
  | cons c cs ih =>
    intro pr
    rw [levRows, levRow]
    have hgo : levRowGo c s2 (lev pr [] :: rowFor pr [] s2) (pr.length + 1) =
        rowFor (c :: pr) [] s2 := by
      have := levRowGo_spec c pr s2 []
      rwa [lev_cons_nil c pr] at this
    rw [hgo]
    have := ih (c :: pr)
    rw [lev_cons_nil c pr] at this
    simpa [List.reverseAux] using this

theorem rowFor_nil_left (ys : List Char) :
    ∀ (q : List Char), rowFor [] q ys = List.range' (q.length + 1) ys.length := by
  induction ys with
  | nil => intro q; simp [rowFor]
  | cons y ys ih =>
    intro q
    rw [rowFor, lev_nil_left, ih (y :: q)]
    simp [List.range'_succ]

theorem range_eq_fullRow (s2 : List Char) :
    List.range (s2.length + 1) = lev [] [] :: rowFor [] [] s2 := by
  rw [lev_nil_left, rowFor_nil_left s2 []]
  rw [List.range_eq_range', List.range'_succ]
  simp

theorem getLastD_rowFor (pr : List Char) :
    ∀ (ys q : List Char) (d : Nat),
      (lev pr q :: rowFor pr q ys).getLastD d = lev pr (ys.reverse ++ q) := by
  intro ys
  induction ys with
  | nil => intro q d; simp [rowFor]
  | cons y ys ih =>
    intro q d
    rw [rowFor, List.getLastD_cons, ih (y :: q)]
    simp

theorem levenshteinDistance_eq_lev (s1 s2 : List Char) :
    levenshteinDistance s1 s2 = lev s1.reverse s2.reverse := by
  rw [levenshteinDistance, range_eq_fullRow]
  have h := levRows_spec s2 s1 []
  simp only [List.length_nil, Nat.zero_add, List.reverseAux_eq, List.append_nil] at h
  rw [h, getLastD_rowFor s1.reverse s2 []]
  simp

theorem lev_self (xs : List Char) : lev xs xs = 0 := by
  induction xs with
  | nil => simp [lev_nil_left]
  | cons x xs ih => rw [lev_cons_cons, if_pos rfl]; exact ih

theorem lev_comm (xs ys : List Char) : lev xs ys = lev ys xs := by
  suffices H : ∀ (n : Nat) (xs ys : List Char), xs.length + ys.length ≤ n →
      lev xs ys = lev ys xs from H (xs.length + ys.length) xs ys le_rfl
  intro n
  induction n with
  | zero =>
    intro xs ys h
    match xs, ys with
    | [], [] => rfl
    | x :: xs, _ => simp at h
    | _, y :: ys => simp at h
  | succ n ih =>
    intro xs ys h
    match xs, ys with
    | [], ys => rw [lev_nil_left]; cases ys <;> simp [lev_nil_left, lev_cons_nil]
    | x :: xs, [] => rw [lev_cons_nil, lev_nil_left]; simp
    | x :: xs, y :: ys =>
      rw [lev_cons_cons, lev_cons_cons]
      simp only [List.length_cons] at h
      have h1 : lev xs (y :: ys) = lev (y :: ys) xs := ih xs (y :: ys) (by simp; omega)
      have h2 : lev (x :: xs) ys = lev ys (x :: xs) := ih (x :: xs) ys (by simp; omega)
      have h3 : lev xs ys = lev ys xs := ih xs ys (by omega)
      by_cases hxy : x = y
      · rw [if_pos hxy, if_pos hxy.symm]; exact h3
      · rw [if_neg hxy, if_neg (fun h => hxy h.symm)]
        rw [h1, h2, h3]
        omega

theorem lev_le_max (xs ys : List Char) : lev xs ys ≤ max xs.length ys.length := by
  suffices H : ∀ (n : Nat) (xs ys : List Char), xs.length + ys.length ≤ n →
      lev xs ys ≤ max xs.length ys.length from H (xs.length + ys.length) xs ys le_rfl
  intro n
  induction n with
  | zero =>
    intro xs ys h
    match xs, ys with
    | [], [] => simp [lev_nil_left]
    | x :: xs, _ => simp at h
    | _, y :: ys => simp at h
  | succ n ih =>
    intro xs ys h
    match xs, ys with
    | [], ys => simp [lev_nil_left]
    | x :: xs, [] => simp [lev_cons_nil]
    | x :: xs, y :: ys =>
      rw [lev_cons_cons]
      simp only [List.length_cons] at h ⊢
      have h3 : lev xs ys ≤ max xs.length ys.length := ih xs ys (by omega)
      by_cases hxy : x = y
      · rw [if_pos hxy]; omega
      · rw [if_neg hxy]; omega

theorem levenshteinDistance_self (s : List Char) : levenshteinDistance s s = 0 := by
  rw [levenshteinDistance_eq_lev]; exact lev_self s.reverse

theorem levenshteinDistance_comm (a b : List Char) :
    levenshteinDistance a b = levenshteinDistance b a := by
  rw [levenshteinDistance_eq_lev, levenshteinDistance_eq_lev]
  exact lev_comm a.reverse b.reverse

theorem levenshteinDistance_le_max (a b : List Char) :
    levenshteinDistance a b ≤ max a.length b.length := by
  rw [levenshteinDistance_eq_lev]
  have := lev_le_max a.reverse b.reverse
  simpa using this

theorem similarityRatio_eq_formula (x y : List Char) :
    similarityRatio x y =
      1 - (levenshteinDistance x y : ℚ) / (max x.length y.length : ℚ) := by
  rw [similarityRatio]
  by_cases h : max x.length y.length = 0
  · rw [if_pos h]
    have hx : x = [] := List.length_eq_zero.mp (Nat.max_eq_zero_iff.mp h).1
    have hy : y = [] := List.length_eq_zero.mp (Nat.max_eq_zero_iff.mp h).2
    subst hx; subst hy
    rw [levenshteinDistance_self]
    norm_num
  · rw [if_neg h]

theorem similarityRatio_bounds (x y : List Char) :
    0 ≤ similarityRatio x y ∧ similarityRatio x y ≤ 1 := by
  by_cases h : max x.length y.length = 0
  · rw [similarityRatio, if_pos h]; norm_num
  · rw [similarityRatio, if_neg h]
    have hm : (0 : ℚ) < (max x.length y.length : ℚ) := by
      exact_mod_cast Nat.pos_of_ne_zero h
    have hle : (levenshteinDistance x y : ℚ) ≤ (max x.length y.length : ℚ) := by
      exact_mod_cast levenshteinDistance_le_max x y
    have h1 : (levenshteinDistance x y : ℚ) / (max x.length y.length : ℚ) ≤ 1 :=
      (div_le_one hm).mpr hle
    have h2 : (0 : ℚ) ≤ (levenshteinDistance x y : ℚ) / (max x.length y.length : ℚ) :=
      div_nonneg (by positivity) (le_of_lt hm)
    constructor <;> linarith

theorem similarityRatio_comm (x y : List Char) :
    similarityRatio x y = similarityRatio y x := by
  rw [similarityRatio, similarityRatio, levenshteinDistance_comm,
    Nat.max_comm x.length y.length, max_comm (x.length : ℚ) (y.length : ℚ)]

theorem similarityRatio_self (x : List Char) : similarityRatio x x = 1 := by
  rw [similarityRatio_eq_formula, levenshteinDistance_self]
  norm_num

/-- C5: for all strings `a` and `b`, the similarity ratio lies in `[0, 1]`,
equals `1 - levenshteinDistance(a, b) / max(|a|, |b|)`, equals 1 when the
two strings are equal (in particular when both are empty), and is
symmetric. -/
theorem similarityRatio_spec (a b : String) :
    0 ≤ similarityRatio a.data b.data ∧
      similarityRatio a.data b.data ≤ 1 ∧
      similarityRatio a.data b.data =
        1 - (levenshteinDistance a.data b.data : ℚ) /
          (max a.data.length b.data.length : ℚ) ∧
      (a = b → similarityRatio a.data b.data = 1) ∧
      similarityRatio "".data "".data = 1 ∧
      similarityRatio a.data b.data = similarityRatio b.data a.data :=
  ⟨(similarityRatio_bounds a.data b.data).1,
    (similarityRatio_bounds a.data b.data).2,
    similarityRatio_eq_formula a.data b.data,
    fun hab => hab ▸ similarityRatio_self a.data,
    similarityRatio_self "".data,
    similarityRatio_comm a.data b.data⟩

/-- Witness for C5 at concrete strings: equal strings score 1, and symmetry
at a distinct pair. -/
theorem similarityRatio_spec_witness :
    similarityRatio "ab".data "ab".data = 1 ∧
      similarityRatio "ab".data "ba".data = similarityRatio "ba".data "ab".data :=
  ⟨(similarityRatio_spec "ab" "ab").2.2.2.1 rfl,
    (similarityRatio_spec "ab" "ba").2.2.2.2.2⟩

/-! The fuzzy matcher: regex escaping, the short-query guard, and the
behavior on empty queries. -/

/-- C6: a query full of regex metacharacters is escaped before it reaches
the word-boundary regex, so the call evaluates without error and returns a
boolean; at the named input the cascade reaches the substring stage (the
exact, whole-similarity and word-boundary stages all fail, the last one
because no word boundary follows the plus signs) and yields `true`. In this
embedding the escaping is what makes the word-boundary stage a pure literal
occurrence test (`wordBoundaryTest`), and `fuzzyMatch` is total by
construction, so the no-throw half of the property is carried by the
definition and the theorem records the returned boolean. -/
theorem fuzzyMatch_regex_escape : fuzzyMatch "C++ Engineer" "C++" 0.6 = true := by
  unfold fuzzyMatch
  have hnt : normalize "C++ Engineer".data = "c++ engineer".data := by decide
  have hnq : normalize "C++".data = "c++".data := by decide
  rw [hnt, hnq]
  unfold fuzzyAfterNorm
  rw [if_neg (by decide : ¬ ("c++ engineer".data = "c++".data))]
  rw [if_neg (show ¬ ((0.6 : ℚ) ≤ similarityRatio "c++ engineer".data "c++".data) by
    rw [similarityRatio_eq_formula,
      show levenshteinDistance "c++ engineer".data "c++".data = 9 from by decide,
      show ("c++ engineer".data).length = 12 from by decide,
      show ("c++".data).length = 3 from by decide]
    norm_num)]
  rw [if_neg (by decide : ¬ (wordBoundaryTest "c++ engineer".data "c++".data = true))]
  rw [if_pos (by decide :
    3 ≤ ("c++".data).length ∧ containsSubstr "c++ engineer".data "c++".data = true)]

/-- C7: when the earlier cascade stages all fail and the query is a single
word of at most 2 characters, the matcher returns exactly the substring
containment of the normalized query in the normalized text — such a query
can never succeed through per-word fuzzy similarity. -/
theorem fuzzyMatch_short_single (text query : String) (t : ℚ) (w : List Char)
    (h1 : normalize text.data ≠ normalize query.data)
    (h2 : similarityRatio (normalize text.data) (normalize query.data) < t)
    (h3 : wordBoundaryTest (normalize text.data) (normalize query.data) = false)
    (hw : wordsOf (normalize query.data) = [w])
    (hlen : w.length ≤ 2) :
    fuzzyMatch text query t =
      containsSubstr (normalize text.data) (normalize query.data) := by
  unfold fuzzyMatch fuzzyAfterNorm
  rw [if_neg h1, if_neg (not_le.mpr h2), if_neg (by simp [h3]), hw]
  by_cases hc : 3 ≤ (normalize query.data).length ∧
      containsSubstr (normalize text.data) (normalize query.data) = true
  · rw [if_pos hc]; exact hc.2.symm
  · rw [if_neg hc]
    simp only [wordStage]
    rw [if_pos hlen]

/-- Witness for C7: the query of two characters against an unrelated word,
where every earlier stage fails; the theorem reduces the call to substring
containment, which is false here. -/
theorem fuzzyMatch_short_single_witness :
    fuzzyMatch "hello" "zq" 0.6 =
      containsSubstr (normalize "hello".data) (normalize "zq".data) ∧
    fuzzyMatch "hello" "zq" 0.6 = false := by
  have h := fuzzyMatch_short_single "hello" "zq" 0.6 "zq".data
    (by decide)
    (show similarityRatio (normalize "hello".data) (normalize "zq".data) < 0.6 by
      rw [show normalize "hello".data = "hello".data from by decide,
        show normalize "zq".data = "zq".data from by decide,
        similarityRatio_eq_formula,
        show levenshteinDistance "hello".data "zq".data = 5 from by decide,
        show ("hello".data).length = 5 from by decide,
        show ("zq".data).length = 2 from by decide]
      norm_num)
    (by decide) (by decide) (by decide)
  exact ⟨h, by rw [h]; decide⟩

theorem toLower_ws {c : Char} (h : c.isWhitespace = true) :
    c.toLower.isWhitespace = true := by
  simp [Char.isWhitespace] at h
  rcases h with ((h | h) | h) | h <;> subst h <;> decide

theorem normalize_ws {l : List Char} (h : ∀ c ∈ l, c.isWhitespace = true) :
    normalize l = [] := by
  unfold normalize trimChars
  have h2 : (l.map Char.toLower).dropWhile Char.isWhitespace = [] := by
    rw [List.dropWhile_eq_nil_iff]
    intro a ha
    rcases List.mem_map.mp ha with ⟨c, hc, rfl⟩
    exact toLower_ws (h c hc)
  rw [h2]
  simp

theorem fuzzyAfterNorm_nil_query (nt : List Char) (t : ℚ) :
    fuzzyAfterNorm nt [] t = true := by
  unfold fuzzyAfterNorm
  by_cases h1 : nt = ([] : List Char)
  · rw [if_pos h1]
  · rw [if_neg h1]
    by_cases h2 : t ≤ similarityRatio nt []
    · rw [if_pos h2]
    · rw [if_neg h2]
      by_cases h3 : wordBoundaryTest nt [] = true
      · rw [if_pos h3]
      · rw [if_neg h3]
        rw [if_neg (by simp : ¬ (3 ≤ ([] : List Char).length ∧ containsSubstr nt [] = true))]
        rw [show wordsOf ([] : List Char) = [] from by decide]
        simp [wordStage]

/-- C10: an empty or whitespace-only query normalizes to the empty string
and `fuzzyMatch` then returns `true` for every text at every threshold
(empty text by exact equality; text with a word character also by the
boundary regex of the escaped empty query; all remaining text vacuously in
the multi-word stage over an empty word list), so an empty query never
filters a job out. -/
theorem fuzzyMatch_empty_query (text query : String) (t : ℚ)
    (h : ∀ c ∈ query.data, c.isWhitespace = true) :
    fuzzyMatch text query t = true := by
  unfold fuzzyMatch
  rw [normalize_ws h]
  exact fuzzyAfterNorm_nil_query (normalize text.data) t

/-- Witness for C10: a whitespace-only query matches a concrete text. -/
theorem fuzzyMatch_empty_query_witness : fuzzyMatch "Engineer" "  " 0.6 = true :=
  fuzzyMatch_empty_query "Engineer" "  " 0.6 (by decide)

/-! The salary extractor on the literals of the claim, and the descending
order they induce. -/

theorem parseFloatQ_145 : parseFloatQ "145".data = some (145 : ℚ) := by
  rw [parseFloatQ, show floatTokens "145".data = some (false, "145".data, []) from by decide]
  simp only [Option.map_some']
  rw [show digitsToNat "145".data = 145 from by decide]
  norm_num [digitsToNat]

theorem parseFloatQ_150 : parseFloatQ "150".data = some (150 : ℚ) := by
  rw [parseFloatQ, show floatTokens "150".data = some (false, "150".data, []) from by decide]
  simp only [Option.map_some']
  rw [show digitsToNat "150".data = 150 from by decide]
  norm_num [digitsToNat]

theorem parseFloatQ_160000 : parseFloatQ "160000.0".data = some (160000 : ℚ) := by
  rw [parseFloatQ,
    show floatTokens "160000.0".data = some (false, "160000".data, "0".data) from by decide]
  simp only [Option.map_some']
  rw [show digitsToNat "160000".data = 160000 from by decide,
    show digitsToNat "0".data = 0 from by decide]
  norm_num

theorem getSalaryValue_none : getSalaryValue none = -1 := by
  simp only [getSalaryValue]

theorem getSalaryValue_unparsed : getSalaryValue (some "Competitive") = -1 := by
  simp only [getSalaryValue]
  rw [if_neg (by decide : ¬ ("Competitive".data = []))]
  rw [show "Competitive".data.filter (fun c => ! isCurrencySym c) = "Competitive".data
    from by decide]
  rw [show findAmount "Competitive".data = none from by decide]
  simp only [getSalaryAfterDict]
  rw [show findRange "Competitive".data = none from by decide]
  simp only [getSalarySingle]
  rw [show findSingle "Competitive".data = none from by decide]

theorem getSalaryValue_range : getSalaryValue (some "$145K-$175K") = 145000 := by
  simp only [getSalaryValue]
  rw [if_neg (by decide : ¬ ("$145K-$175K".data = []))]
  rw [show "$145K-$175K".data.filter (fun c => ! isCurrencySym c) = "145K-175K".data
    from by decide]
  rw [show findAmount "145K-175K".data = none from by decide]
  simp only [getSalaryAfterDict]
  rw [show findRange "145K-175K".data = some ("145".data, true) from by decide]
  simp only []
  rw [show "145".data.filter (fun c => ! (c == ',')) = "145".data from by decide]
  rw [parseFloatQ_145]
  norm_num

theorem getSalaryValue_single : getSalaryValue (some "$150K") = 150000.5 := by
  simp only [getSalaryValue]
  rw [if_neg (by decide : ¬ ("$150K".data = []))]
  rw [show "$150K".data.filter (fun c => ! isCurrencySym c) = "150K".data from by decide]
  rw [show findAmount "150K".data = none from by decide]
  simp only [getSalaryAfterDict]
  rw [show findRange "150K".data = none from by decide]
  simp only [getSalarySingle]
  rw [show findSingle "150K".data = some ("150".data, true) from by decide]
  simp only []
  rw [show "150".data.filter (fun c => ! (c == ',')) = "150".data from by decide]
  rw [parseFloatQ_150]
  norm_num

theorem getSalaryValue_dict :
    getSalaryValue
        (some "\x7b\x27unit\x27:\x27USD\x27,\x27amount\x27:\x27160000.0\x27\x7d") =
      160000.5 := by
  simp only [getSalaryValue]
  rw [if_neg (by decide :
    ¬ ("\x7b\x27unit\x27:\x27USD\x27,\x27amount\x27:\x27160000.0\x27\x7d".data = []))]
  rw [show "\x7b\x27unit\x27:\x27USD\x27,\x27amount\x27:\x27160000.0\x27\x7d".data.filter
      (fun c => ! isCurrencySym c) =
    "\x7b\x27unit\x27:\x27USD\x27,\x27amount\x27:\x27160000.0\x27\x7d".data from by decide]
  rw [show findAmount "\x7b\x27unit\x27:\x27USD\x27,\x27amount\x27:\x27160000.0\x27\x7d".data =
    some "160000.0".data from by decide]
  simp only []
  rw [parseFloatQ_160000]
  norm_num

/-- C3: the salary extractor maps absent text and unparsable text to `-1`,
the range literal to its minimum bound scaled by the `K` (no `0.5` offset),
the single literal to its scaled amount plus `0.5`, and the dict literal to
its amount plus `0.5`; consequently the sidebar's descending salary sort
orders the dict value, then the single value, then the range, then the
absent salary. -/
theorem getSalaryValue_spec :
    getSalaryValue none = -1 ∧
      getSalaryValue (some "Competitive") = -1 ∧
      getSalaryValue (some "$145K-$175K") = 145000 ∧
      getSalaryValue (some "$150K") = 150000.5 ∧
      getSalaryValue
          (some "\x7b\x27unit\x27:\x27USD\x27,\x27amount\x27:\x27160000.0\x27\x7d") =
        160000.5 ∧
      sortJobsSidebar (fun _ => none) "salary"
          [⟨"range", "c", "l", none, some "$145K-$175K", none⟩,
            ⟨"single", "c", "l", none, some "$150K", none⟩,
            ⟨"dict", "c", "l", none,
              some "\x7b\x27unit\x27:\x27USD\x27,\x27amount\x27:\x27160000.0\x27\x7d", none⟩,
            ⟨"none", "c", "l", none, none, none⟩] =
        [⟨"dict", "c", "l", none,
            some "\x7b\x27unit\x27:\x27USD\x27,\x27amount\x27:\x27160000.0\x27\x7d", none⟩,
          ⟨"single", "c", "l", none, some "$150K", none⟩,
          ⟨"range", "c", "l", none, some "$145K-$175K", none⟩,
          ⟨"none", "c", "l", none, none, none⟩] := by
  refine ⟨getSalaryValue_none, getSalaryValue_unparsed, getSalaryValue_range,
    getSalaryValue_single, getSalaryValue_dict, ?_⟩
  rw [sortJobsSidebar]
  rw [if_neg (by decide : ¬ ("salary" = "company")),
    if_neg (by decide : ¬ ("salary" = "location")),
    if_neg (by decide : ¬ ("salary" = "title")),
    if_neg (by decide : ¬ ("salary" = "recent")),
    if_neg (by decide : ¬ ("salary" = "experience")),
    if_pos rfl]
  norm_num [stableSort, stableInsert, getSalaryValue_range, getSalaryValue_single,
    getSalaryValue_dict, getSalaryValue_none]

/-! The structured query parser on the concrete inputs of the claims. -/

/-- C1 counterexample: at the round-trip input the parser does not return
the values the claim asserts — the location capture runs to the end of the
string, so `location` is not `"Remote"` and the free text does not stay in
`generalSearch`. -/
theorem parseSearchText_roundtrip_counterexample :
    parseSearchText "@company:OpenAI @location:Remote senior engineer" ≠
      ⟨none, some "OpenAI", some "Remote", "senior engineer"⟩ := by decide

/-- C1 amended: each tag value is captured up to the next at-sign tag or the
end of the string, so the free text after the last tag is absorbed into that
tag's value: the input parses to age null, company `"OpenAI"`, location
`"Remote senior engineer"`, and an empty general search. -/
theorem parseSearchText_roundtrip_amended :
    parseSearchText "@company:OpenAI @location:Remote senior engineer" =
      ⟨none, some "OpenAI", some "Remote senior engineer", ""⟩ := by decide

/-- C2 counterexample: with the age tag repeated, the parsed field does come
from the first occurrence, but the later repeat is not left embedded in
`generalSearch` as literal text — the global replace removes every
occurrence of the tag pattern. -/
theorem parseSearchText_repeat_counterexample :
    (parseSearchText "@age:5 react @age:7").age = some 5 ∧
      containsSubstr (parseSearchText "@age:5 react @age:7").generalSearch.data
        "@age:7".data = false := by decide

/-- C2 amended: only the first occurrence of a repeated tag determines the
parsed field, and the later repeats are removed from the text by the tag's
global replace rather than left in `generalSearch`: the repeated age input
parses to age 5 with general search `"react"`, and the repeated company
input parses to company `"Acme x"` (the first capture, which runs to the
next at-sign) with an empty general search. -/
theorem parseSearchText_repeat_amended :
    parseSearchText "@age:5 react @age:7" = ⟨some 5, none, none, "react"⟩ ∧
      parseSearchText "@company:Acme x @company:Beta" =
        ⟨none, some "Acme x", none, ""⟩ := by decide

/-! The experience extractor and its ascending order. -/

theorem firstDigitRun_none :
    ∀ (l : List Char), (∀ c ∈ l, c.isDigit = false) → firstDigitRun l = none := by
  intro l h
  induction l with
  | nil => rfl
  | cons c cs ih =>
    have hc : c.isDigit = false := h c (by simp)
    simp only [firstDigitRun, hc, Bool.false_eq_true, if_false]
    exact ih (fun d hd => h d (by simp [hd]))

theorem getExperienceValue_nodigit (s : String) (hs : ∀ c ∈ s.data, c.isDigit = false) :
    getExperienceValue (some s) = ⊤ := by
  simp only [getExperienceValue]
  by_cases hd : s.data = []
  · rw [if_pos hd]
  · rw [if_neg hd, firstDigitRun_none s.data hs]

/-- C8: the experience extractor takes the first run of digits as the years
value and returns the top element (Infinity) for an absent or digit-free
string, so the ascending experience sort puts the `2-4 years` job first,
then the `5 years` job, then the job with no experience. -/
theorem getExperienceValue_spec :
    getExperienceValue (some "5 years") = (5 : ℕ∞) ∧
      getExperienceValue (some "2-4 years") = (2 : ℕ∞) ∧
      getExperienceValue none = ⊤ ∧
      (∀ s : String, (∀ c ∈ s.data, c.isDigit = false) → getExperienceValue (some s) = ⊤) ∧
      sortJobsSidebar (fun _ => none) "experience"
          [⟨"five", "c", "l", none, none, some "5 years"⟩,
            ⟨"unknown", "c", "l", none, none, none⟩,
            ⟨"range", "c", "l", none, none, some "2-4 years"⟩] =
        [⟨"range", "c", "l", none, none, some "2-4 years"⟩,
          ⟨"five", "c", "l", none, none, some "5 years"⟩,
          ⟨"unknown", "c", "l", none, none, none⟩] :=
  ⟨by decide, by decide, by decide, getExperienceValue_nodigit, by decide⟩

/-- Witness for C8 at a digit-free experience string. -/
theorem getExperienceValue_spec_witness : getExperienceValue (some "senior") = ⊤ :=
  getExperienceValue_spec.2.2.2.1 "senior" (by decide)

/-! The sort switch on unrecognized keys. -/

/-- C4 counterexample: an unrecognized sort key does not fail: the all-jobs
switch falls through to its default branch and silently sorts by title —
here the unknown key `"oldest"` produces exactly the title sort, visibly
reordering the list rather than raising a configuration error. -/
theorem sortJobs_unknown_key_counterexample :
    sortJobs "oldest"
        [⟨⟨"beta", "c", "l", none, none, none⟩, none⟩,
          ⟨⟨"alpha", "c", "l", none, none, none⟩, none⟩] =
      sortJobs "title"
        [⟨⟨"beta", "c", "l", none, none, none⟩, none⟩,
          ⟨⟨"alpha", "c", "l", none, none, none⟩, none⟩] ∧
      sortJobs "oldest"
        [⟨⟨"beta", "c", "l", none, none, none⟩, none⟩,
          ⟨⟨"alpha", "c", "l", none, none, none⟩, none⟩] ≠
      [⟨⟨"beta", "c", "l", none, none, none⟩, none⟩,
        ⟨⟨"alpha", "c", "l", none, none, none⟩, none⟩] := by decide

/-- C4 amended: an unrecognized sort key never raises an error: the
all-jobs list silently substitutes the default title sort (its switch joins
the title case to the default case), and the sidebar, whose switch has no
default case, silently leaves the order unchanged. -/
theorem sortJobs_unknown_key_amended (sb : String) (l : List JobWithTimestamp)
    (getJobDate : Job → Option Int) (l2 : List Job)
    (h : sb ∉ (["location", "company", "recent", "title", "experience", "salary"] :
      List String)) :
    sortJobs sb l = sortJobs "title" l ∧ sortJobsSidebar getJobDate sb l2 = l2 := by
  simp only [List.mem_cons, List.not_mem_nil, or_false, not_or] at h
  obtain ⟨h1, h2, h3, h4, h5, h6⟩ := h
  constructor
  · rw [sortJobs, sortJobs]
    rw [if_neg h1, if_neg h2, if_neg h3,
      if_neg (by decide : ¬ ("title" = "location")),
      if_neg (by decide : ¬ ("title" = "company")),
      if_neg (by decide : ¬ ("title" = "recent"))]
  · rw [sortJobsSidebar]
    rw [if_neg h2, if_neg h1, if_neg h4, if_neg h3, if_neg h5, if_neg h6]

/-- Witness for C4 amended at the unknown key `"oldest"` and concrete
lists. -/
theorem sortJobs_unknown_key_witness :
    sortJobs "oldest"
        [⟨⟨"b", "c", "l", none, none, none⟩, none⟩,
          ⟨⟨"a", "c", "l", none, none, none⟩, none⟩] =
      sortJobs "title"
        [⟨⟨"b", "c", "l", none, none, none⟩, none⟩,
          ⟨⟨"a", "c", "l", none, none, none⟩, none⟩] ∧
      sortJobsSidebar (fun _ => none) "oldest" [⟨"a", "c", "l", none, none, none⟩] =
        [⟨"a", "c", "l", none, none, none⟩] :=
  sortJobs_unknown_key_amended "oldest" _ (fun _ => none) _ (by decide)

/-! Purity of the pipeline: the output is a reordering of a subset of the
unchanged input records, and a rerun with the same inputs gives the same
output. -/

theorem stableInsert_perm (le : α → α → Bool) (a : α) (l : List α) :
    (stableInsert le a l).Perm (a :: l) := by
  induction l with
  | nil => exact List.Perm.refl _
  | cons b bs ih =>
    rw [stableInsert]
    by_cases h : le a b = true
    · rw [if_pos h]
    · rw [if_neg h]
      exact (List.Perm.cons b ih).trans (List.Perm.swap a b bs)

theorem stableSort_perm (le : α → α → Bool) (l : List α) : (stableSort le l).Perm l := by
  induction l with
  | nil => exact List.Perm.refl _
  | cons a as ih =>
    rw [stableSort]
    exact (stableInsert_perm le a (stableSort le as)).trans (List.Perm.cons a ih)

theorem sortJobs_perm (sb : String) (l : List JobWithTimestamp) : (sortJobs sb l).Perm l := by
  rw [sortJobs]
  by_cases h1 : sb = "location"
  · rw [if_pos h1]; exact stableSort_perm _ l
  · rw [if_neg h1]
    by_cases h2 : sb = "company"
    · rw [if_pos h2]; exact stableSort_perm _ l
    · rw [if_neg h2]
      by_cases h3 : sb = "recent"
      · rw [if_pos h3]; exact stableSort_perm _ l
      · rw [if_neg h3]; exact stableSort_perm _ l

theorem ageFiltered_sublist (now : Int) (eff : Option Int) (l : List JobWithTimestamp) :
    (ageFiltered now eff l).Sublist l := by
  cases eff with
  | none => exact List.Sublist.refl l
  | some a => exact List.filter_sublist l

theorem companyFiltered_sublist (copt : Option String) (l : List JobWithTimestamp) :
    (companyFiltered copt l).Sublist l := by
  cases copt with
  | none => exact List.Sublist.refl l
  | some c => exact List.filter_sublist l

theorem locationFiltered_sublist (lopt : Option String) (l : List JobWithTimestamp) :
    (locationFiltered lopt l).Sublist l := by
  cases lopt with
  | none => exact List.Sublist.refl l
  | some lo => exact List.filter_sublist l

theorem generalFiltered_sublist (g : String) (l : List JobWithTimestamp) :
    (generalFiltered g l).Sublist l := by
  rw [generalFiltered]
  by_cases h : trimChars g.data = []
  · rw [if_pos h]
  · rw [if_neg h]; exact List.filter_sublist l

theorem jobsWithTimestamps_map_job (parseDate : String → Option Int) (jobs : List Job) :
    (jobsWithTimestamps parseDate jobs).map JobWithTimestamp.job = jobs := by
  rw [jobsWithTimestamps, List.map_map]
  exact List.map_id jobs

/-- C9: one evaluation of the query pipeline returns a list whose records,
projected back, form a subpermutation of the input collection — the engine
reorders and drops records but never alters or invents one (the embedding
is a pure function of its arguments, so the JavaScript-level statement that
the input array and its elements are not mutated appears here as the output
being built from the unchanged input records); and two evaluations with the
same collection, search text, sort key, age filter, date parser and current
time return identical ordered output. -/
theorem processedJobs_pure (parseDate : String → Option Int) (now : Int) (jobs : List Job)
    (searchText : String) (sortBy : String) (ageFilter : Option Int) :
    List.Subperm ((processedJobs parseDate now jobs searchText sortBy ageFilter).map
        JobWithTimestamp.job) jobs ∧
      processedJobs parseDate now jobs searchText sortBy ageFilter =
        processedJobs parseDate now jobs searchText sortBy ageFilter := by
  refine ⟨?_, rfl⟩
  rw [processedJobs]
  have hsub : (generalFiltered (parseSearchText searchText).generalSearch
      (locationFiltered (parseSearchText searchText).location
        (companyFiltered (parseSearchText searchText).company
          (ageFiltered now (effAge (parseSearchText searchText).age ageFilter)
            (jobsWithTimestamps parseDate jobs))))).Sublist
      (jobsWithTimestamps parseDate jobs) :=
    ((generalFiltered_sublist _ _).trans
      ((locationFiltered_sublist _ _).trans
        ((companyFiltered_sublist _ _).trans (ageFiltered_sublist _ _ _))))
  refine ⟨(generalFiltered (parseSearchText searchText).generalSearch
      (locationFiltered (parseSearchText searchText).location
        (companyFiltered (parseSearchText searchText).company
          (ageFiltered now (effAge (parseSearchText searchText).age ageFilter)
            (jobsWithTimestamps parseDate jobs))))).map JobWithTimestamp.job,
    ((sortJobs_perm sortBy _).map JobWithTimestamp.job).symm, ?_⟩
  have h2 := hsub.map JobWithTimestamp.job
  rw [jobsWithTimestamps_map_job parseDate jobs] at h2
  exact h2

end JobSearch
